import Mathlib

/-!
Verification of the Clotho dataset materialization pipeline.

Strings are embedded as `List Char` (Python `str`).  Word tokens and
character tokens are both `List Char`; token sequences are
`List (List Char)`.  The Python functions of `tools/captions_functions.py`,
`tools/dataset_functions.py`, `tools/aux_functions.py`,
`tools/multi_processing.py` and `processes/dataset.py` are translated to
executable Lean definitions below; file I/O (pickle dumps, numpy dumps,
audio loading) is outside the model, so functions take loaded values as
arguments and return the values the Python code would persist.  Fallible
operations (Python exceptions) become `Option`/`Except` results.
-/

/-- Literal helper: the character list of a Lean string literal. -/
def lit (s : String) : List Char := s.data

/-- Python `str.lower` restricted to the ASCII captions handled here:
per-character lower-casing. -/
def pyLower (s : List Char) : List Char := s.map Char.toLower

/-- Python whitespace, as used by `str.split()` / `str.strip()`. -/
def isSpaceCh (c : Char) : Bool :=
  c = ' ' || c = '\t' || c = '\n' || c = '\r' || c = Char.ofNat 11 || c = Char.ofNat 12

/-- Python `str.strip()`: drop leading and trailing whitespace. -/
def pyStrip (s : List Char) : List Char :=
  (((s.dropWhile isSpaceCh).reverse).dropWhile isSpaceCh).reverse

/-- Worker for `pySplit`; `acc` is the current word, reversed. -/
def pySplitAux : List Char → List Char → List (List Char)
  | acc, [] => if acc = [] then [] else [acc.reverse]
  | acc, c :: cs =>
    if isSpaceCh c then
      (if acc = [] then pySplitAux [] cs else acc.reverse :: pySplitAux [] cs)
    else pySplitAux (c :: acc) cs

/-- Python `str.split()` (no argument): split on whitespace runs,
discarding empty fields. -/
def pySplit (s : List Char) : List (List Char) := pySplitAux [] s

/-- Does `pat` occur as a contiguous substring of `s`? -/
def hasSub (pat : List Char) : List Char → Bool
  | [] => pat.isPrefixOf []
  | c :: cs => pat.isPrefixOf (c :: cs) || hasSub pat cs

/-- Python `s.replace(pat, '')` with fuel for structural recursion:
scan left to right, removing each non-overlapping occurrence of `pat`.
Callers pass `fuel = s.length`, which is always sufficient. -/
def removeSubFuel (pat : List Char) : Nat → List Char → List Char
  | 0, s => s
  | _ + 1, [] => []
  | n + 1, c :: cs =>
    if pat ≠ [] ∧ pat.isPrefixOf (c :: cs) then
      removeSubFuel pat n (List.drop pat.length (c :: cs))
    else c :: removeSubFuel pat n cs

/-- Python `s.replace(pat, '')`. -/
def removeSub (pat s : List Char) : List Char := removeSubFuel pat s.length s

/-- The special-token stripping of `clean_sentence`
(`captions_functions.py` lines 62-64): four sequential `str.replace`
calls with the exact patterns `'<SOS> '`, `'<sos> '`, `' <EOS>'`, `' <eos>'`. -/
def removeSpecials (s : List Char) : List Char :=
  removeSub (lit " <eos>") (removeSub (lit " <EOS>") (removeSub (lit "<sos> ") (removeSub (lit "<SOS> ") s)))

/-- The punctuation characters of `re.sub('[,.!?;:\x22]', ' ', ...)`. -/
def punctChars : List Char := [',', '.', '!', '?', ';', ':', '\"']

/-- The punctuation step of `clean_sentence`
(`captions_functions.py` line 67): each punctuation character is
substituted by a single space. -/
def subPunct : List Char → List Char
  | [] => []
  | c :: cs => (if c ∈ punctChars then ' ' else c) :: subPunct cs

/-- `clean_sentence(sentence, keep_case, remove_punctuation, remove_specials)`
(`captions_functions.py` lines 45-69). -/
def cleanSentence (s : List Char) (keep_case remove_punctuation remove_specials_f : Bool) :
    List Char :=
  let t1 := if keep_case then s else pyLower s
  let t2 := if remove_specials_f then removeSpecials t1 else t1
  if remove_punctuation then subPunct t2 else t2

/-- First-encounter deduplication, excluding tokens already in `seen`.
This is the order in which a Python insertion-ordered dict / `Counter`
first meets each distinct key. -/
def firstDedupAux (seen : List (List Char)) : List (List Char) → List (List Char)
  | [] => []
  | x :: xs => if x ∈ seen then firstDedupAux seen xs else x :: firstDedupAux (x :: seen) xs

/-- Distinct elements in first-encounter order. -/
def firstDedup (l : List (List Char)) : List (List Char) := firstDedupAux [] l

/-- `get_sentence_words(sentence, unique, keep_case, remove_punctuation,
remove_specials)` (`captions_functions.py` lines 16-42).  The Python
`list(set(words))` has unspecified order (hash-dependent); it is modelled
by the explicit parameter `dedup`, an arbitrary function standing for one
set-iteration order. -/
def getSentenceWords (dedup : List (List Char) → List (List Char)) (s : List Char)
    (unique keep_case remove_punctuation remove_specials_f : Bool) : List (List Char) :=
  let ws := pySplit (pyStrip (cleanSentence s keep_case remove_punctuation remove_specials_f))
  if unique then dedup ws else ws

/-- `' '.join(words)`. -/
def joinSpace : List (List Char) → List Char
  | [] => []
  | [w] => w
  | w :: ws => w ++ ' ' :: joinSpace ws

/-- Python `list.index(x)`: index of the first occurrence, error (`none`)
when absent. -/
def pyIndex (l : List (List Char)) (x : List Char) : Option Nat :=
  match l with
  | [] => none
  | y :: ys => if y = x then some 0 else (pyIndex ys x).map (· + 1)

/-- `[vocab.index(t) for t in toks]`: `none` as soon as one lookup fails. -/
def lookupAll (vocab : List (List Char)) : List (List Char) → Option (List Nat)
  | [] => some []
  | t :: ts =>
    match pyIndex vocab t, lookupAll vocab ts with
    | some i, some l => some (i :: l)
    | _, _ => none

/-- One `Counter` / insertion-ordered dict step: increment the first entry
with the given key, or append a fresh entry with count 1. -/
def counterAdd : List (List Char × Nat) → List Char → List (List Char × Nat)
  | [], t => [(t, 1)]
  | (k, v) :: rest, t =>
    if k = t then (k, v + 1) :: rest else (k, v) :: counterAdd rest t

/-- `collections.Counter(iterable)`: insertion-ordered counting. -/
def counterOf (l : List (List Char)) : List (List Char × Nat) :=
  List.foldl counterAdd [] l

/-- Number of occurrences of a token in a token list. -/
def occCount (t : List Char) : List (List Char) → Nat
  | [] => 0
  | x :: xs => (if x = t then 1 else 0) + occCount t xs

/-- The annotation/normalization settings of the YAML configuration
(`settings_ann` in the source). -/
structure AnnSettings where
  keep_case : Bool
  remove_punctuation_words : Bool
  remove_punctuation_chars : Bool
  use_special_tokens : Bool
  use_unique_words_per_caption : Bool
  nb_captions : Nat
deriving DecidableEq, Repr

/-- `create_lists_and_frequencies(captions, ...)` (`tools/dataset_functions.py`
lines 80-138).  Returns the four persisted artifacts
`(words_list, frequencies_words, chars_list, frequencies_chars)`. -/
def createListsAndFrequencies (dedup : List (List Char) → List (List Char))
    (s : AnnSettings) (captions : List (List Char)) :
    List (List Char) × List Nat × List (List Char) × List Nat :=
  let wordToks := (captions.map (fun c =>
    getSentenceWords dedup c s.use_unique_words_per_caption s.keep_case
      s.remove_punctuation_words (!s.use_special_tokens))).flatten
  let cw := counterOf wordToks
  let cleaned := captions.map (fun c =>
    cleanSentence c s.keep_case s.remove_punctuation_chars true)
  let charToks := cleaned.flatten.map (fun ch => ([ch] : List Char))
  let cc0 := counterOf charToks
  let cc := if s.use_special_tokens then
      List.foldl counterAdd
        (List.foldl counterAdd cc0 (List.replicate cleaned.length (lit "<sos>")))
        (List.replicate cleaned.length (lit "<eos>"))
    else cc0
  (cw.map Prod.fst, cw.map Prod.snd, cc.map Prod.fst, cc.map Prod.snd)

/-- The word-token sequence a split-materializer derives from one caption
(`tools/multi_processing.py` lines 186-191). -/
def wordsOf (dedup : List (List Char) → List (List Char)) (s : AnnSettings)
    (c : List Char) : List (List Char) :=
  getSentenceWords dedup c s.use_unique_words_per_caption s.keep_case
    s.remove_punctuation_words (!s.use_special_tokens)

/-- The character-token sequence of `create_split_data_sub`
(`tools/multi_processing.py` lines 193-204): per-character singletons of the
cleaned caption; with special tokens enabled, `'<sos>'`, `' '` are inserted
at the head and `' '`, `'<eos>'` appended. -/
def charsOfMp (s : AnnSettings) (c : List Char) : List (List Char) :=
  let base := (cleanSentence c s.keep_case s.remove_punctuation_chars true).map
    (fun ch => ([ch] : List Char))
  if s.use_special_tokens then
    lit "<sos>" :: lit " " :: base ++ [lit " ", lit "<eos>"]
  else base

/-- The character-token sequence of `_create_split_data`
(`processes/dataset.py` lines 73-82): cleaning uses
`remove_punctuation_words`, and the bare tokens `'<sos>'` / `'<eos>'` are
inserted without surrounding blanks. -/
def charsOfDs (s : AnnSettings) (c : List Char) : List (List Char) :=
  let base := (cleanSentence c s.keep_case s.remove_punctuation_words true).map
    (fun ch => ([ch] : List Char))
  if s.use_special_tokens then
    lit "<sos>" :: base ++ [lit "<eos>"]
  else base

/-- The persisted numpy record of one (clip, caption) pair. -/
structure SampleRec where
  file_name : List Char
  audio : List Int
  caption : List Char
  caption_ind : Nat
  words_ind : List Nat
  chars_ind : List Nat
deriving DecidableEq, Repr

/-- The per-caption body of `create_split_data_sub`
(`tools/multi_processing.py` lines 183-229): derive word and character
tokens, look every token up in the persisted vocabularies
(`list.index`, fatal on a missing token — modelled as `none`, in which
case no record is produced), and assemble the record. -/
def materializeCaption (dedup : List (List Char) → List (List Char)) (s : AnnSettings)
    (wl cl : List (List Char)) (fname : List Char) (audio : List Int)
    (capIdx : Nat) (caption : List Char) : Option SampleRec :=
  match lookupAll wl (wordsOf dedup s caption), lookupAll cl (charsOfMp s caption) with
  | some iw, some ic => some ⟨fname, audio, caption, capIdx, iw, ic⟩
  | _, _ => none

/-- The per-caption body of `_create_split_data` (`processes/dataset.py`
lines 63-106), differing from `materializeCaption` only in the character
tokens. -/
def materializeCaptionDs (dedup : List (List Char) → List (List Char)) (s : AnnSettings)
    (wl cl : List (List Char)) (fname : List Char) (audio : List Int)
    (capIdx : Nat) (caption : List Char) : Option SampleRec :=
  match lookupAll wl (wordsOf dedup s caption), lookupAll cl (charsOfDs s caption) with
  | some iw, some ic => some ⟨fname, audio, caption, capIdx, iw, ic⟩
  | _, _ => none

/-- `[vocab[i] for i in ixs]`; `none` on an index out of range
(Python `IndexError`). -/
def getAllIdx (vocab : List (List Char)) : List Nat → Option (List (List Char))
  | [] => some []
  | i :: is =>
    match vocab[i]?, getAllIdx vocab is with
    | some t, some ts => some (t :: ts)
    | _, _ => none

/-- `' '.join([words_list[i] for i in indices])`. -/
def decodeWords (vocab : List (List Char)) (ixs : List Nat) : Option (List Char) :=
  (getAllIdx vocab ixs).map joinSpace

/-- `''.join([chars_list[i] for i in indices])`. -/
def decodeChars (vocab : List (List Char)) (ixs : List Nat) : Option (List Char) :=
  (getAllIdx vocab ixs).map List.flatten

/-- The error taxonomy of the Verifier (`check_data_for_split_sub`). -/
inductive VError where
  | audioLen      -- "was not saved successfully": length mismatch
  | audioBad      -- "has wrong audio data"
  | captionBad    -- "has wrong caption"
  | wordIdxBad    -- "has wrong words indices"
  | charIdxBad    -- "has wrong characters indices"
  | idxError      -- Python IndexError while decoding indices
  | noData        -- "has no associated data"
deriving DecidableEq, Repr

/-- The per-record checks of `check_data_for_split_sub`
(`tools/multi_processing.py` lines 74-135), in source order: audio length,
audio samples, caption text, word indices, character indices.  `origCap` is
the caption recovered from the CSV entry for the record's `caption_ind`. -/
def checkRecord (s : AnnSettings) (wl cl : List (List Char)) (origCap : List Char)
    (r : SampleRec) (audioOrig : List Int) : Except VError Unit :=
  if r.audio.length ≠ audioOrig.length then .error .audioLen
  else if r.audio ≠ audioOrig then .error .audioBad
  else
    let oc := cleanSentence origCap true false (!s.use_special_tokens)
    let ca := cleanSentence r.caption true false (!s.use_special_tokens)
    if oc ≠ ca then .error .captionBad
    else
      match decodeWords wl r.words_ind with
      | none => .error .idxError
      | some dw =>
        let cw := cleanSentence r.caption s.keep_case s.remove_punctuation_words
          (!s.use_special_tokens)
        if cw ≠ dw then .error .wordIdxBad
        else
          match decodeChars cl r.chars_ind with
          | none => .error .idxError
          | some dc =>
            let cc := cleanSentence r.caption s.keep_case s.remove_punctuation_chars
              (!s.use_special_tokens)
            if cc ≠ dc then .error .charIdxBad else .ok ()

/-- Decidable equality of verification outcomes, for concrete evaluation. -/
instance : DecidableEq (Except VError Unit) := fun a b =>
  match a, b with
  | .error x, .error y =>
    if h : x = y then .isTrue (congrArg Except.error h)
    else .isFalse (fun hh => h (Except.error.inj hh))
  | .ok x, .ok y => .isTrue (by cases x; cases y; rfl)
  | .error _, .ok _ => .isFalse (fun hh => Except.noConfusion hh)
  | .ok _, .error _ => .isFalse (fun hh => Except.noConfusion hh)

/-- One file of the data directory, as seen by the Verifier: its name and the
record loaded from it. -/
structure DataFile where
  name : List Char
  rcd : SampleRec
deriving DecidableEq, Repr

/-- Python `s.split(pat)` with fuel (`pat` nonempty in every use; the
`fuel = 0` and `pat = []` fallbacks are unreachable).  `acc` is the current
chunk, reversed. -/
def splitSubFuel (pat : List Char) : Nat → List Char → List Char → List (List Char)
  | 0, acc, s => [acc.reverse ++ s]
  | _ + 1, acc, [] => [acc.reverse]
  | n + 1, acc, c :: cs =>
    if pat ≠ [] ∧ pat.isPrefixOf (c :: cs) then
      acc.reverse :: splitSubFuel pat n [] (List.drop pat.length (c :: cs))
    else splitSubFuel pat n (c :: acc) cs

/-- Python `s.split(pat)`. -/
def splitOnSub (pat s : List Char) : List (List Char) :=
  if pat = [] then [s] else splitSubFuel pat s.length [] s

/-- `str(data_file).split('file_')[-1].split('.wav_')[0]`
(`tools/multi_processing.py` line 70): recover the audio stem from a record
file name. -/
def parseStem (n : List Char) : List Char :=
  (splitOnSub (lit ".wav_") ((splitOnSub (lit "file_") n).getLastD [])).headD []

/-- The directory scan of `check_data_for_split_sub`
(`tools/multi_processing.py` lines 61-139): walk the data files, check every
record whose parsed stem matches the entry's audio stem (the first failing
check aborts), and raise the no-associated-data error after the walk when no
file matched.  `csvCap i` is the caption stored in the CSV entry under field
number `i`; a matching record with stored index `k` is checked against
`csvCap (k + 1)`. -/
def checkEntryFiles (s : AnnSettings) (wl cl : List (List Char))
    (csvCap : Nat → List Char) (stem : List Char) (audioOrig : List Int) :
    List DataFile → Bool → Except VError Unit
  | [], matched => if matched then .ok () else .error .noData
  | f :: fs, matched =>
    if parseStem f.name = stem then
      match checkRecord s wl cl (csvCap (f.rcd.caption_ind + 1)) f.rcd audioOrig with
      | .ok _ => checkEntryFiles s wl cl csvCap stem audioOrig fs true
      | .error e => .error e
    else checkEntryFiles s wl cl csvCap stem audioOrig fs matched

/-- Verification of one annotation entry whose audio file exists
(the existence check of lines 56-58 precedes this and is outside the model). -/
def checkEntry (s : AnnSettings) (wl cl : List (List Char))
    (csvCap : Nat → List Char) (stem : List Char) (audioOrig : List Int)
    (files : List DataFile) : Except VError Unit :=
  checkEntryFiles s wl cl csvCap stem audioOrig files false

/-- The per-entry caption preprocessing of `get_annotations_files`
(`tools/dataset_functions.py` lines 209-236): fields are the caption columns
numbered by `captions_fields_prefix.format(i)`; the code builds the field
list from the literal `range(1, 6)`, cleans each of those five captions with
`keep_case=True, remove_punctuation=False, remove_specials=False`, wraps it
as `'<SOS> {caption} <EOS>'` when special tokens are enabled, and writes it
back; every other field is untouched.  An entry is modelled as the map from
caption-field number to stored string. -/
def processEntry (s : AnnSettings) (entry : Nat → List Char) : Nat → List Char :=
  fun i =>
    if 1 ≤ i ∧ i ≤ 5 then
      (if s.use_special_tokens then
        lit "<SOS> " ++ cleanSentence (entry i) true false false ++ lit " <EOS>"
      else cleanSentence (entry i) true false false)
    else entry i

/-- `i` is the position Python `list.index` reports for `t` in `v`: the first
index holding `t`. -/
def firstPos (v : List (List Char)) (i : Nat) (t : List Char) : Prop :=
  v[i]? = some t ∧ ∀ j, j < i → v[j]? ≠ some t

/-- `d` is an admissible model of Python `list(set(·))`: its output has no
duplicates and exactly the members of its input. -/
def PySetLike (d : List (List Char) → List (List Char)) : Prop :=
  ∀ l, (d l).Nodup ∧ ∀ x, x ∈ d l ↔ x ∈ l

/-! ### Concrete instances used by witnesses and counterexamples -/

/-- Settings with every normalization flag off. -/
def cfgPlain : AnnSettings := ⟨false, false, false, false, false, 5⟩

/-- Settings with word-side punctuation stripping only. -/
def cfgPunctW : AnnSettings := ⟨false, true, false, false, false, 5⟩

/-- Settings with special tokens enabled. -/
def cfgSpec : AnnSettings := ⟨false, false, false, true, false, 5⟩

/-- Settings with per-caption unique words enabled. -/
def cfgUniq : AnnSettings := ⟨false, false, false, false, true, 5⟩

/-- Settings with special tokens enabled and four configured captions. -/
def cfgSpecN4 : AnnSettings := ⟨false, false, false, true, false, 4⟩

/-- A second admissible model of `list(set(.))`: same members, reversed order. -/
def revDedup (l : List (List Char)) : List (List Char) := (firstDedup l).reverse

/-- The record `create_split_data_sub` materializes from caption `"a."` under
`cfgPunctW` with vocabularies `[\x22a\x22]` and `[\x22a\x22, \x22.\x22]`. -/
def recPunct : SampleRec := ⟨lit "f.wav", [0], lit "a.", 0, [0], [0, 1]⟩

/-- The record `create_split_data_sub` materializes from the unwrapped caption
`"a"` under `cfgSpec`. -/
def recSpec : SampleRec := ⟨lit "f.wav", [0], lit "a", 0, [0], [0, 1, 2, 1, 3]⟩

/-- A record that passes every per-record check for caption `"a"` under
`cfgPlain` with vocabularies `[\x22a\x22]` and `[\x22a\x22]`. -/
def recPlain : SampleRec := ⟨lit "x.wav", [0], lit "a", 0, [0], [0]⟩

/-- A data file whose name parses back to audio stem `"x"`. -/
def filePlain : DataFile := ⟨lit "clotho_file_x.wav_1.npy", recPlain⟩

/-- A constant annotation entry for the reader model. -/
def entryX : Nat → List Char := fun _ => lit "x"

/-! ### Lookup and decoding lemmas -/

theorem pyIndex_none_iff (l : List (List Char)) (x : List Char) :
    pyIndex l x = none ↔ x ∉ l := by
  induction l with
  | nil => simp [pyIndex]
  | cons y ys ih =>
    by_cases h : y = x
    · simp [pyIndex, h]
    · simp [pyIndex, h, ih, Ne.symm h]

theorem pyIndex_firstPos {l : List (List Char)} {x : List Char} {i : Nat}
    (h : pyIndex l x = some i) : firstPos l i x := by
  induction l generalizing i with
  | nil => simp [pyIndex] at h
  | cons y ys ih =>
    by_cases hy : y = x
    · simp [pyIndex, hy] at h
      subst h
      exact ⟨by simp [hy], by omega⟩
    · simp [pyIndex, hy] at h
      obtain ⟨i', hi', rfl⟩ := h
      obtain ⟨h1, h2⟩ := ih hi'
      refine ⟨by simpa using h1, ?_⟩
      intro j hj
      cases j with
      | zero => simpa using hy
      | succ k => simpa using h2 k (by omega)

theorem lookupAll_none_iff (v : List (List Char)) (toks : List (List Char)) :
    lookupAll v toks = none ↔ ∃ t ∈ toks, t ∉ v := by
  induction toks with
  | nil => simp [lookupAll]
  | cons t ts ih =>
    cases hp : pyIndex v t with
    | none =>
      simp only [lookupAll, hp]
      constructor
      · intro _
        exact ⟨t, by simp, (pyIndex_none_iff v t).mp hp⟩
      · intro _
        trivial
    | some i =>
      have htv : t ∈ v := by
        by_contra hm
        rw [(pyIndex_none_iff v t).mpr hm] at hp
        cases hp
      cases hl : lookupAll v ts with
      | none =>
        simp only [lookupAll, hp, hl]
        constructor
        · intro _
          obtain ⟨u, hu, hv⟩ := ih.mp hl
          exact ⟨u, by simp [hu], hv⟩
        · intro _
          trivial
      | some ixs =>
        simp only [lookupAll, hp, hl]
        constructor
        · intro hh
          cases hh
        · rintro ⟨u, hu, hv⟩
          rcases List.mem_cons.mp hu with rfl | hu'
          · exact absurd htv hv
          · exact absurd (ih.mpr ⟨u, hu', hv⟩) (by simp [hl])

theorem lookupAll_forall₂ {v : List (List Char)} {toks : List (List Char)}
    {ixs : List Nat} (h : lookupAll v toks = some ixs) :
    List.Forall₂ (firstPos v) ixs toks := by
  induction toks generalizing ixs with
  | nil =>
    simp only [lookupAll] at h
    cases h
    exact List.Forall₂.nil
  | cons t ts ih =>
    cases hp : pyIndex v t with
    | none => simp [lookupAll, hp] at h
    | some i =>
      cases hl : lookupAll v ts with
      | none => simp [lookupAll, hp, hl] at h
      | some l =>
        simp only [lookupAll, hp, hl] at h
        cases h
        exact List.Forall₂.cons (pyIndex_firstPos hp) (ih hl)

theorem lookupAll_getAllIdx {v : List (List Char)} {toks : List (List Char)}
    {ixs : List Nat} (h : lookupAll v toks = some ixs) :
    getAllIdx v ixs = some toks := by
  induction toks generalizing ixs with
  | nil =>
    simp only [lookupAll] at h
    cases h
    rfl
  | cons t ts ih =>
    cases hp : pyIndex v t with
    | none => simp [lookupAll, hp] at h
    | some i =>
      cases hl : lookupAll v ts with
      | none => simp [lookupAll, hp, hl] at h
      | some l =>
        simp only [lookupAll, hp, hl] at h
        cases h
        have h1 : v[i]? = some t := (pyIndex_firstPos hp).1
        simp [getAllIdx, h1, ih hl]

/-! ### Counter and first-encounter-order lemmas -/

theorem firstDedupAux_congr :
    ∀ (l : List (List Char)) {s1 s2 : List (List Char)},
      (∀ x, x ∈ s1 ↔ x ∈ s2) → firstDedupAux s1 l = firstDedupAux s2 l
  | [], _, _, _ => rfl
  | x :: xs, s1, s2, h => by
    by_cases hx : x ∈ s1
    · rw [firstDedupAux, firstDedupAux, if_pos hx, if_pos ((h x).mp hx)]
      exact firstDedupAux_congr xs h
    · rw [firstDedupAux, firstDedupAux, if_neg hx, if_neg (fun hc => hx ((h x).mpr hc))]
      refine congrArg _ (firstDedupAux_congr xs ?_)
      intro y
      simp [h y]

theorem firstDedupAux_mem (l : List (List Char)) :
    ∀ (seen : List (List Char)) (x : List Char),
      x ∈ firstDedupAux seen l ↔ (x ∈ l ∧ x ∉ seen) := by
  induction l with
  | nil => simp [firstDedupAux]
  | cons y ys ih =>
    intro seen x
    by_cases hy : y ∈ seen
    · rw [firstDedupAux, if_pos hy, ih]
      constructor
      · rintro ⟨h1, h2⟩
        exact ⟨List.mem_cons_of_mem _ h1, h2⟩
      · rintro ⟨h1, h2⟩
        rcases List.mem_cons.mp h1 with rfl | h1'
        · exact absurd hy h2
        · exact ⟨h1', h2⟩
    · rw [firstDedupAux, if_neg hy]
      constructor
      · intro hm
        rcases List.mem_cons.mp hm with rfl | hm'
        · exact ⟨List.mem_cons_self _ _, hy⟩
        · obtain ⟨h1, h2⟩ := (ih _ _).mp hm'
          refine ⟨List.mem_cons_of_mem _ h1, fun hc => h2 (List.mem_cons_of_mem _ hc)⟩
      · rintro ⟨h1, h2⟩
        rcases List.mem_cons.mp h1 with rfl | h1'
        · exact List.mem_cons_self _ _
        · by_cases hxy : x = y
          · subst hxy
            exact List.mem_cons_self _ _
          · refine List.mem_cons_of_mem _ ((ih _ _).mpr ⟨h1', ?_⟩)
            intro hc
            rcases List.mem_cons.mp hc with h | h
            · exact hxy h
            · exact h2 h

theorem firstDedupAux_nodup (l : List (List Char)) :
    ∀ seen : List (List Char), (firstDedupAux seen l).Nodup := by
  induction l with
  | nil => simp [firstDedupAux]
  | cons y ys ih =>
    intro seen
    by_cases hy : y ∈ seen
    · rw [firstDedupAux, if_pos hy]
      exact ih seen
    · rw [firstDedupAux, if_neg hy]
      refine List.Nodup.cons ?_ (ih _)
      intro hc
      exact (((firstDedupAux_mem ys _ y).mp hc).2) (List.mem_cons_self _ _)

theorem counterAdd_notMem {acc : List (List Char × Nat)} {t : List Char}
    (h : t ∉ acc.map Prod.fst) : counterAdd acc t = acc ++ [(t, 1)] := by
  induction acc with
  | nil => rfl
  | cons p rest ih =>
    obtain ⟨k, v⟩ := p
    simp only [List.map_cons, List.mem_cons] at h
    push_neg at h
    rw [counterAdd, if_neg (fun hc => h.1 hc.symm)]
    simp [ih h.2]

theorem counterAdd_mem {acc : List (List Char × Nat)} {t : List Char}
    (hnd : (acc.map Prod.fst).Nodup) (h : t ∈ acc.map Prod.fst) :
    counterAdd acc t = acc.map (fun p => if p.1 = t then (p.1, p.2 + 1) else p) := by
  induction acc with
  | nil => simp at h
  | cons p rest ih =>
    obtain ⟨k, v⟩ := p
    simp only [List.map_cons, List.nodup_cons] at hnd
    by_cases hk : k = t
    · subst hk
      rw [counterAdd, if_pos rfl]
      simp only [List.map_cons, if_pos rfl]
      refine congrArg _ ?_
      have : ∀ p ∈ rest, (fun p => if p.1 = k then (p.1, p.2 + 1) else p) p = p := by
        rintro ⟨k', v'⟩ hp
        have : k' ≠ k := by
          intro hc
          subst hc
          exact hnd.1 (List.mem_map_of_mem Prod.fst hp)
        simp [this]
      rw [List.map_congr_left this]
      exact (List.map_id rest).symm
    · simp only [List.map_cons, List.mem_cons] at h
      rcases h with h | h
      · exact absurd h.symm hk
      · rw [counterAdd, if_neg hk]
        simp only [List.map_cons, if_neg hk]
        exact congrArg _ (ih hnd.2 h)

theorem keys_counterAdd (acc : List (List Char × Nat)) (t : List Char) :
    (counterAdd acc t).map Prod.fst =
      if t ∈ acc.map Prod.fst then acc.map Prod.fst else acc.map Prod.fst ++ [t] := by
  induction acc with
  | nil => simp [counterAdd]
  | cons p rest ih =>
    obtain ⟨k, v⟩ := p
    by_cases hk : k = t
    · subst hk
      simp [counterAdd]
    · rw [counterAdd, if_neg hk]
      by_cases hm : t ∈ rest.map Prod.fst
      · simp [ih, hm, Ne.symm hk]
      · simp [ih, hm, Ne.symm hk]

theorem counterFold_spec (l : List (List Char)) :
    ∀ acc : List (List Char × Nat), (acc.map Prod.fst).Nodup →
      List.foldl counterAdd acc l =
        acc.map (fun p => (p.1, p.2 + occCount p.1 l)) ++
          (firstDedupAux (acc.map Prod.fst) l).map (fun t => (t, occCount t l)) := by
  induction l with
  | nil =>
    intro acc _
    simp [occCount, firstDedupAux]
  | cons t ts ih =>
    intro acc hnd
    rw [List.foldl_cons]
    by_cases hmem : t ∈ acc.map Prod.fst
    · have hkeys : (counterAdd acc t).map Prod.fst = acc.map Prod.fst := by
        rw [keys_counterAdd, if_pos hmem]
      have hnd' : ((counterAdd acc t).map Prod.fst).Nodup := by rw [hkeys]; exact hnd
      rw [ih (counterAdd acc t) hnd', hkeys, counterAdd_mem hnd hmem, List.map_map]
      have hA : acc.map ((fun p => (p.1, p.2 + occCount p.1 ts)) ∘
            (fun p => if p.1 = t then (p.1, p.2 + 1) else p)) =
          acc.map (fun p => (p.1, p.2 + occCount p.1 (t :: ts))) := by
        refine List.map_congr_left ?_
        rintro ⟨k, v⟩ _
        by_cases hk : k = t
        · subst hk
          simp [occCount]
          try omega
        · simp [occCount, hk, Ne.symm hk]
          try omega
      have hB : (firstDedupAux (acc.map Prod.fst) ts).map (fun u => (u, occCount u ts)) =
          (firstDedupAux (acc.map Prod.fst) ts).map (fun u => (u, occCount u (t :: ts))) := by
        refine List.map_congr_left ?_
        intro u hu
        have hun : u ∉ acc.map Prod.fst := ((firstDedupAux_mem ts _ u).mp hu).2
        have hut : t ≠ u := fun hc => hun (hc ▸ hmem)
        simp [occCount, hut]
      rw [hA, hB, firstDedupAux, if_pos hmem]
    · have hka : counterAdd acc t = acc ++ [(t, 1)] := counterAdd_notMem hmem
      have hkeys : (counterAdd acc t).map Prod.fst = acc.map Prod.fst ++ [t] := by
        rw [keys_counterAdd, if_neg hmem]
      have hnd' : ((counterAdd acc t).map Prod.fst).Nodup := by
        rw [hkeys]
        refine List.Nodup.append hnd (List.nodup_singleton t) ?_
        intro a ha hb
        rw [List.mem_singleton] at hb
        exact hmem (hb ▸ ha)
      rw [ih (counterAdd acc t) hnd', hkeys, hka, List.map_append]
      have hA : acc.map (fun p => (p.1, p.2 + occCount p.1 ts)) =
          acc.map (fun p => (p.1, p.2 + occCount p.1 (t :: ts))) := by
        refine List.map_congr_left ?_
        rintro ⟨k, v⟩ hk
        have hkm : k ∈ acc.map Prod.fst := List.mem_map_of_mem Prod.fst hk
        have htk : t ≠ k := fun hc => hmem (hc ▸ hkm)
        simp [occCount, htk]
      have hB : ([((t : List Char), 1)].map (fun p => (p.1, p.2 + occCount p.1 ts))) =
          [(t, occCount t (t :: ts))] := by
        simp [occCount]
        try omega
      have hC : firstDedupAux (acc.map Prod.fst ++ [t]) ts =
          firstDedupAux (t :: acc.map Prod.fst) ts := by
        refine firstDedupAux_congr ts ?_
        intro x
        simp [or_comm]
      have hD : (firstDedupAux (t :: acc.map Prod.fst) ts).map (fun u => (u, occCount u ts)) =
          (firstDedupAux (t :: acc.map Prod.fst) ts).map (fun u => (u, occCount u (t :: ts))) := by
        refine List.map_congr_left ?_
        intro u hu
        have hun : u ∉ t :: acc.map Prod.fst := ((firstDedupAux_mem ts _ u).mp hu).2
        have hut : t ≠ u := fun hc => hun (hc ▸ List.mem_cons_self t _)
        simp [occCount, hut]
      rw [hA, hC, hD] at *
      rw [hB]
      rw [firstDedupAux, if_neg hmem]
      simp [List.append_assoc]

theorem counterOf_spec (l : List (List Char)) :
    counterOf l = (firstDedup l).map (fun t => (t, occCount t l)) := by
  have h := counterFold_spec l [] (by simp)
  simpa [counterOf, firstDedup] using h

/-! ### Claim C3: first-encounter ordering of the word vocabulary -/

/-- Claim C3: with special tokens disabled (and per-caption deduplication off,
as the occurrence-count reading requires), `create_lists_and_frequencies`
returns as `words_list` the distinct normalized word tokens in
first-encounter order over the captions scanned in input order, and as
`frequencies_words` the parallel occurrence counts. -/
theorem claim_C3_first_encounter
    (dedup : List (List Char) → List (List Char)) (s : AnnSettings)
    (captions : List (List Char))
    (hu : s.use_unique_words_per_caption = false)
    (hs : s.use_special_tokens = false) :
    (createListsAndFrequencies dedup s captions).1 =
        firstDedup ((captions.map (fun c =>
          pySplit (pyStrip (cleanSentence c s.keep_case s.remove_punctuation_words true)))).flatten)
      ∧ (createListsAndFrequencies dedup s captions).2.1 =
        (firstDedup ((captions.map (fun c =>
          pySplit (pyStrip (cleanSentence c s.keep_case s.remove_punctuation_words true)))).flatten)).map
          (fun t => occCount t ((captions.map (fun c =>
            pySplit (pyStrip (cleanSentence c s.keep_case s.remove_punctuation_words true)))).flatten)) := by
  have htoks : (captions.map (fun c =>
      getSentenceWords dedup c s.use_unique_words_per_caption s.keep_case
        s.remove_punctuation_words (!s.use_special_tokens))) =
      captions.map (fun c =>
        pySplit (pyStrip (cleanSentence c s.keep_case s.remove_punctuation_words true))) := by
    simp [getSentenceWords, hu, hs]
  constructor
  · simp only [createListsAndFrequencies, htoks, counterOf_spec, List.map_map]
    have hfst : (Prod.fst ∘ fun t : List Char =>
        (t, occCount t ((captions.map (fun c =>
          pySplit (pyStrip (cleanSentence c s.keep_case
            s.remove_punctuation_words true)))).flatten))) = id :=
      funext fun t => rfl
    rw [hfst, List.map_id]
  · simp only [createListsAndFrequencies, htoks, counterOf_spec, List.map_map]
    have hsnd : (Prod.snd ∘ fun t : List Char =>
        (t, occCount t ((captions.map (fun c =>
          pySplit (pyStrip (cleanSentence c s.keep_case
            s.remove_punctuation_words true)))).flatten))) =
        fun t => occCount t ((captions.map (fun c =>
          pySplit (pyStrip (cleanSentence c s.keep_case
            s.remove_punctuation_words true)))).flatten) :=
      funext fun t => rfl
    rw [hsnd]

/-- Witness for C3 at the spec's concrete example: captions
`["a b", "b a"]` give word vocabulary `["a", "b"]` with frequencies `[2, 2]`. -/
theorem claim_C3_first_encounter_witness :
    ((createListsAndFrequencies firstDedup cfgPlain [lit "a b", lit "b a"]).1 =
        firstDedup ((([lit "a b", lit "b a"]).map (fun c =>
          pySplit (pyStrip (cleanSentence c cfgPlain.keep_case
            cfgPlain.remove_punctuation_words true)))).flatten)
      ∧ (createListsAndFrequencies firstDedup cfgPlain [lit "a b", lit "b a"]).2.1 =
        (firstDedup ((([lit "a b", lit "b a"]).map (fun c =>
          pySplit (pyStrip (cleanSentence c cfgPlain.keep_case
            cfgPlain.remove_punctuation_words true)))).flatten)).map
          (fun t => occCount t ((([lit "a b", lit "b a"]).map (fun c =>
            pySplit (pyStrip (cleanSentence c cfgPlain.keep_case
              cfgPlain.remove_punctuation_words true)))).flatten)))
    ∧ (createListsAndFrequencies firstDedup cfgPlain [lit "a b", lit "b a"]).1 =
        [lit "a", lit "b"]
    ∧ (createListsAndFrequencies firstDedup cfgPlain [lit "a b", lit "b a"]).2.1 = [2, 2] :=
  ⟨claim_C3_first_encounter firstDedup cfgPlain [lit "a b", lit "b a"] rfl rfl,
   by decide, by decide⟩

/-! ### Claim C9: empty caption list -/

/-- Claim C9: for every settings combination (special tokens included),
`create_lists_and_frequencies` on an empty caption list returns empty word
list, word frequencies, character list and character frequencies, raising no
error. -/
theorem claim_C9_empty_vocab (dedup : List (List Char) → List (List Char))
    (s : AnnSettings) :
    createListsAndFrequencies dedup s [] = ([], [], [], []) := by
  cases h : s.use_special_tokens <;>
    simp [createListsAndFrequencies, counterOf, h]

/-! ### Claim C4: determinism of vocabulary construction -/

/-- Counterexample for C4 as stated: with `use_unique_words_per_caption`
enabled, the output depends on the unspecified `list(set(...))` iteration
order, so two invocations need not agree.  Both `firstDedup` and `revDedup`
are admissible set-iteration orders, yet they give different vocabularies on
the single caption `"a b"`. -/
theorem claim_C4_determinism_cex :
    PySetLike firstDedup ∧ PySetLike revDedup ∧
      createListsAndFrequencies firstDedup cfgUniq [lit "a b"] ≠
        createListsAndFrequencies revDedup cfgUniq [lit "a b"] := by
  refine ⟨?_, ?_, by decide⟩
  · intro l
    refine ⟨firstDedupAux_nodup l [], fun x => ?_⟩
    simpa using firstDedupAux_mem l [] x
  · intro l
    refine ⟨List.nodup_reverse.mpr (firstDedupAux_nodup l []), fun x => ?_⟩
    rw [revDedup, List.mem_reverse]
    simpa using firstDedupAux_mem l [] x

/-- Claim C4 amended: vocabulary construction is deterministic — independent
of the set-iteration order — whenever `use_unique_words_per_caption` is
disabled; with it enabled the result depends on the unspecified set order
(see the counterexample). -/
theorem claim_C4_determinism_amended
    (d1 d2 : List (List Char) → List (List Char)) (s : AnnSettings)
    (captions : List (List Char))
    (hu : s.use_unique_words_per_caption = false) :
    createListsAndFrequencies d1 s captions = createListsAndFrequencies d2 s captions := by
  simp [createListsAndFrequencies, getSentenceWords, hu]

/-- Witness for the amended C4 at a concrete input. -/
theorem claim_C4_determinism_witness :
    createListsAndFrequencies firstDedup cfgPlain [lit "a"] =
      createListsAndFrequencies revDedup cfgPlain [lit "a"] :=
  claim_C4_determinism_amended firstDedup revDedup cfgPlain [lit "a"] rfl

/-! ### Further lookup lemmas -/

theorem lookupAll_cons_inv {v : List (List Char)} {t : List Char}
    {ts : List (List Char)} {ixs : List Nat}
    (h : lookupAll v (t :: ts) = some ixs) :
    ∃ i l, ixs = i :: l ∧ pyIndex v t = some i ∧ lookupAll v ts = some l := by
  cases hp : pyIndex v t with
  | none => simp [lookupAll, hp] at h
  | some i =>
    cases hl : lookupAll v ts with
    | none => simp [lookupAll, hp, hl] at h
    | some l =>
      simp only [lookupAll, hp, hl] at h
      cases h
      exact ⟨i, l, rfl, rfl, rfl⟩

theorem getLast?_cons_ne {α : Type} (a : α) {l : List α} (h : l ≠ []) :
    (a :: l).getLast? = l.getLast? := by
  cases l with
  | nil => exact absurd rfl h
  | cons b bs => rfl

theorem lookupAll_last {v : List (List Char)} {toks : List (List Char)}
    {ixs : List Nat} {t : List Char} (h : lookupAll v toks = some ixs)
    (hl : toks.getLast? = some t) :
    ∃ j, ixs.getLast? = some j ∧ v[j]? = some t := by
  induction toks generalizing ixs with
  | nil => simp at hl
  | cons u us ih =>
    obtain ⟨i, l, rfl, hp, hts⟩ := lookupAll_cons_inv h
    cases us with
    | nil =>
      simp only [lookupAll] at hts
      cases hts
      simp only [List.getLast?_singleton, Option.some_inj] at hl
      subst hl
      exact ⟨i, rfl, (pyIndex_firstPos hp).1⟩
    | cons w ws =>
      rw [getLast?_cons_ne u (by simp)] at hl
      obtain ⟨j, hj, hv⟩ := ih hts hl
      obtain ⟨i', l', rfl, _, _⟩ := lookupAll_cons_inv hts
      exact ⟨j, by rw [getLast?_cons_ne i (by simp)]; exact hj, hv⟩

/-! ### Claim C2: out-of-vocabulary lookup is fatal -/

/-- Claim C2: during materialization of one caption, the lookups fail (no
record is produced) exactly when some derived word token is missing from the
word vocabulary or some derived character token is missing from the
character vocabulary; when every token is present, the record is produced
and each stored index is the position of the first occurrence of the
corresponding token in its vocabulary list. -/
theorem claim_C2_oov_fatal (dedup : List (List Char) → List (List Char))
    (s : AnnSettings) (wl cl : List (List Char)) (fn : List Char)
    (au : List Int) (ci : Nat) (c : List Char) :
    (materializeCaption dedup s wl cl fn au ci c = none ↔
      (∃ t ∈ wordsOf dedup s c, t ∉ wl) ∨ (∃ t ∈ charsOfMp s c, t ∉ cl))
    ∧ (∀ r, materializeCaption dedup s wl cl fn au ci c = some r →
        r = ⟨fn, au, c, ci, r.words_ind, r.chars_ind⟩ ∧
        List.Forall₂ (firstPos wl) r.words_ind (wordsOf dedup s c) ∧
        List.Forall₂ (firstPos cl) r.chars_ind (charsOfMp s c)) := by
  cases hw : lookupAll wl (wordsOf dedup s c) with
  | none =>
    refine ⟨?_, ?_⟩
    · simp only [materializeCaption, hw]
      constructor
      · intro _
        exact Or.inl ((lookupAll_none_iff _ _).mp hw)
      · intro _
        trivial
    · intro r hr
      simp [materializeCaption, hw] at hr
  | some iw =>
    cases hc : lookupAll cl (charsOfMp s c) with
    | none =>
      refine ⟨?_, ?_⟩
      · simp only [materializeCaption, hw, hc]
        constructor
        · intro _
          exact Or.inr ((lookupAll_none_iff _ _).mp hc)
        · intro _
          trivial
      · intro r hr
        simp [materializeCaption, hw, hc] at hr
    | some ic =>
      refine ⟨?_, ?_⟩
      · simp only [materializeCaption, hw, hc]
        constructor
        · intro hcon
          cases hcon
        · rintro (⟨t, ht, hv⟩ | ⟨t, ht, hv⟩)
          · exact absurd ((lookupAll_none_iff wl (wordsOf dedup s c)).mpr ⟨t, ht, hv⟩)
              (by simp [hw])
          · exact absurd ((lookupAll_none_iff cl (charsOfMp s c)).mpr ⟨t, ht, hv⟩)
              (by simp [hc])
      · intro r hr
        simp only [materializeCaption, hw, hc, Option.some_inj] at hr
        subst hr
        exact ⟨rfl, lookupAll_forall₂ hw, lookupAll_forall₂ hc⟩

/-- Witness for C2: the caption `"b"` is out of vocabulary (`none`), while
the caption `"a"` materializes with positional indices. -/
theorem claim_C2_oov_fatal_witness :
    materializeCaption firstDedup cfgPlain [lit "a"] [lit "a"] (lit "x.wav") [0] 0 (lit "b") = none
    ∧ List.Forall₂ (firstPos [lit "a"])
        ((⟨lit "x.wav", [0], lit "a", 0, [0], [0]⟩ : SampleRec)).words_ind
        (wordsOf firstDedup cfgPlain (lit "a"))
    ∧ List.Forall₂ (firstPos [lit "a"])
        ((⟨lit "x.wav", [0], lit "a", 0, [0], [0]⟩ : SampleRec)).chars_ind
        (charsOfMp cfgPlain (lit "a")) := by
  refine ⟨?_, ?_, ?_⟩
  · exact (claim_C2_oov_fatal firstDedup cfgPlain [lit "a"] [lit "a"]
      (lit "x.wav") [0] 0 (lit "b")).1.mpr (Or.inl ⟨lit "b", by decide, by decide⟩)
  · exact ((claim_C2_oov_fatal firstDedup cfgPlain [lit "a"] [lit "a"]
      (lit "x.wav") [0] 0 (lit "a")).2 ⟨lit "x.wav", [0], lit "a", 0, [0], [0]⟩ rfl).2.1
  · exact ((claim_C2_oov_fatal firstDedup cfgPlain [lit "a"] [lit "a"]
      (lit "x.wav") [0] 0 (lit "a")).2 ⟨lit "x.wav", [0], lit "a", 0, [0], [0]⟩ rfl).2.2

/-! ### Claim C5: special-token injection at head and tail -/

/-- Claim C5: with `use_special_tokens = true`, for every caption and every
case/punctuation setting, a successfully materialized record's character
index sequence decodes to a sequence whose first token is the whole token
`'<sos>'` and whose last token is the whole token `'<eos>'` — in the
`create_split_data_sub` variant (which also inserts blank tokens) and in the
`_create_split_data` variant (which inserts the bare tokens). -/
theorem claim_C5_special_tokens (dedup : List (List Char) → List (List Char))
    (s : AnnSettings) (wl cl wl2 cl2 : List (List Char)) (fn : List Char)
    (au : List Int) (ci : Nat) (c : List Char) (r r2 : SampleRec)
    (hs : s.use_special_tokens = true) :
    (materializeCaption dedup s wl cl fn au ci c = some r →
      ∃ i j, r.chars_ind.head? = some i ∧ r.chars_ind.getLast? = some j ∧
        cl[i]? = some (lit "<sos>") ∧ cl[j]? = some (lit "<eos>"))
    ∧ (materializeCaptionDs dedup s wl2 cl2 fn au ci c = some r2 →
      ∃ i j, r2.chars_ind.head? = some i ∧ r2.chars_ind.getLast? = some j ∧
        cl2[i]? = some (lit "<sos>") ∧ cl2[j]? = some (lit "<eos>")) := by
  constructor
  · intro hm
    cases hw : lookupAll wl (wordsOf dedup s c) with
    | none => simp [materializeCaption, hw] at hm
    | some iw =>
      cases hc : lookupAll cl (charsOfMp s c) with
      | none => simp [materializeCaption, hw, hc] at hm
      | some ic =>
        simp only [materializeCaption, hw, hc, Option.some_inj] at hm
        subst hm
        have hshape : charsOfMp s c = lit "<sos>" :: lit " " ::
            ((cleanSentence c s.keep_case s.remove_punctuation_chars true).map
              (fun ch => ([ch] : List Char)) ++ [lit " ", lit "<eos>"]) := by
          simp [charsOfMp, hs]
        rw [hshape] at hc
        obtain ⟨i, l, rfl, hp, hrest⟩ := lookupAll_cons_inv hc
        have hlast : (lit "<sos>" :: lit " " ::
            ((cleanSentence c s.keep_case s.remove_punctuation_chars true).map
              (fun ch => ([ch] : List Char)) ++ [lit " ", lit "<eos>"])).getLast? =
            some (lit "<eos>") := by
          rw [getLast?_cons_ne _ (by simp), getLast?_cons_ne _ (by simp)]
          rw [show ((cleanSentence c s.keep_case s.remove_punctuation_chars true).map
              (fun ch => ([ch] : List Char)) ++ [lit " ", lit "<eos>"]) =
            (((cleanSentence c s.keep_case s.remove_punctuation_chars true).map
              (fun ch => ([ch] : List Char)) ++ [lit " "]) ++ [lit "<eos>"]) by
            simp]
          exact List.getLast?_concat _
        obtain ⟨j, hj, hv⟩ := lookupAll_last hc hlast
        exact ⟨i, j, rfl, hj, (pyIndex_firstPos hp).1, hv⟩
  · intro hm
    cases hw : lookupAll wl2 (wordsOf dedup s c) with
    | none => simp [materializeCaptionDs, hw] at hm
    | some iw =>
      cases hc : lookupAll cl2 (charsOfDs s c) with
      | none => simp [materializeCaptionDs, hw, hc] at hm
      | some ic =>
        simp only [materializeCaptionDs, hw, hc, Option.some_inj] at hm
        subst hm
        have hshape : charsOfDs s c = lit "<sos>" ::
            ((cleanSentence c s.keep_case s.remove_punctuation_words true).map
              (fun ch => ([ch] : List Char)) ++ [lit "<eos>"]) := by
          simp [charsOfDs, hs]
        rw [hshape] at hc
        obtain ⟨i, l, rfl, hp, hrest⟩ := lookupAll_cons_inv hc
        have hlast : (lit "<sos>" ::
            ((cleanSentence c s.keep_case s.remove_punctuation_words true).map
              (fun ch => ([ch] : List Char)) ++ [lit "<eos>"])).getLast? =
            some (lit "<eos>") := by
          rw [getLast?_cons_ne _ (by simp)]
          exact List.getLast?_concat _
        obtain ⟨j, hj, hv⟩ := lookupAll_last hc hlast
        exact ⟨i, j, rfl, hj, (pyIndex_firstPos hp).1, hv⟩

/-- Witness for C5: the caption `"a"` under `cfgSpec`, in both materializer
variants. -/
theorem claim_C5_special_tokens_witness :
    (∃ i j, (recSpec.chars_ind).head? = some i ∧ (recSpec.chars_ind).getLast? = some j ∧
      ([lit "<sos>", lit " ", lit "a", lit "<eos>"])[i]? = some (lit "<sos>") ∧
      ([lit "<sos>", lit " ", lit "a", lit "<eos>"])[j]? = some (lit "<eos>"))
    ∧ (∃ i j, (⟨lit "f.wav", [0], lit "a", 0, [0], [0, 2, 3]⟩ : SampleRec).chars_ind.head? = some i ∧
      (⟨lit "f.wav", [0], lit "a", 0, [0], [0, 2, 3]⟩ : SampleRec).chars_ind.getLast? = some j ∧
      ([lit "<sos>", lit " ", lit "a", lit "<eos>"])[i]? = some (lit "<sos>") ∧
      ([lit "<sos>", lit " ", lit "a", lit "<eos>"])[j]? = some (lit "<eos>")) := by
  constructor
  · exact (claim_C5_special_tokens firstDedup cfgSpec [lit "a"]
      [lit "<sos>", lit " ", lit "a", lit "<eos>"] [lit "a"]
      [lit "<sos>", lit " ", lit "a", lit "<eos>"] (lit "f.wav") [0] 0 (lit "a")
      recSpec recSpec rfl).1 (by decide)
  · exact (claim_C5_special_tokens firstDedup cfgSpec [lit "a"]
      [lit "<sos>", lit " ", lit "a", lit "<eos>"] [lit "a"]
      [lit "<sos>", lit " ", lit "a", lit "<eos>"] (lit "f.wav") [0] 0 (lit "a")
      recSpec ⟨lit "f.wav", [0], lit "a", 0, [0], [0, 2, 3]⟩ rfl).2 (by decide)

/-! ### Claim C1: index round-trip at verification time -/

theorem flatten_singletons (l : List Char) :
    (l.map (fun ch => ([ch] : List Char))).flatten = l := by
  induction l with
  | nil => rfl
  | cons c cs ih => simp [ih]

theorem wordsOf_no_unique {dedup : List (List Char) → List (List Char)}
    {s : AnnSettings} (c : List Char)
    (hu : s.use_unique_words_per_caption = false) :
    wordsOf dedup s c = pySplit (pyStrip (cleanSentence c s.keep_case
      s.remove_punctuation_words (!s.use_special_tokens))) := by
  simp [wordsOf, getSentenceWords, hu]

theorem flatten_charsOfMp (s : AnnSettings) (c : List Char) :
    (charsOfMp s c).flatten =
      (if s.use_special_tokens then
        lit "<sos> " ++ cleanSentence c s.keep_case s.remove_punctuation_chars true ++ lit " <eos>"
      else cleanSentence c s.keep_case s.remove_punctuation_chars true) := by
  cases hs : s.use_special_tokens with
  | false => simp [charsOfMp, hs, flatten_singletons]
  | true =>
    have h1 : lit "<sos> " = lit "<sos>" ++ lit " " := rfl
    have h2 : lit " <eos>" = lit " " ++ lit "<eos>" := rfl
    simp [charsOfMp, hs, flatten_singletons, h1, h2]

/-- Counterexample to C1 as stated: the decoded index sequences of a
faithfully materialized record need not equal the claimed normalizations of
its stored caption, and the Verifier then rejects the very record the
materializer wrote.  First conjunct: with word-side punctuation stripping,
caption `"a."` cleans to `"a "` (punctuation becomes a space) while the
decoded word indices give `"a"`, so the word-index check fails.  Second
conjunct: with special tokens enabled, the character indices decode to
`"<sos> a <eos>"` while the claimed char-policy normalization of the stored
caption `"a"` is `"a"`, so the character-index check fails. -/
theorem claim_C1_round_trip_cex :
    (materializeCaption firstDedup cfgPunctW [lit "a"] [lit "a", lit "."]
        (lit "f.wav") [0] 0 (lit "a.") = some recPunct
      ∧ decodeWords [lit "a"] recPunct.words_ind = some (lit "a")
      ∧ cleanSentence (lit "a.") cfgPunctW.keep_case cfgPunctW.remove_punctuation_words
          (!cfgPunctW.use_special_tokens) = lit "a "
      ∧ lit "a" ≠ lit "a "
      ∧ checkRecord cfgPunctW [lit "a"] [lit "a", lit "."] (lit "a.") recPunct [0] =
          Except.error VError.wordIdxBad)
    ∧ (materializeCaption firstDedup cfgSpec [lit "a"]
        [lit "<sos>", lit " ", lit "a", lit "<eos>"] (lit "f.wav") [0] 0 (lit "a") =
          some recSpec
      ∧ decodeChars [lit "<sos>", lit " ", lit "a", lit "<eos>"] recSpec.chars_ind =
          some (lit "<sos> a <eos>")
      ∧ cleanSentence (lit "a") cfgSpec.keep_case cfgSpec.remove_punctuation_chars
          (!cfgSpec.use_special_tokens) = lit "a"
      ∧ lit "<sos> a <eos>" ≠ lit "a"
      ∧ checkRecord cfgSpec [lit "a"] [lit "<sos>", lit " ", lit "a", lit "<eos>"]
          (lit "a") recSpec [0] = Except.error VError.charIdxBad) := by
  refine ⟨⟨by decide, by decide, by decide, by decide, by decide⟩,
          ⟨by decide, by decide, by decide, by decide, by decide⟩⟩

/-- Claim C1 amended.  Part 1: for every record materialized by
`create_split_data_sub` (with per-caption deduplication off), decoding
`words_ind` through the word vocabulary yields the single-space join of the
word tokens of the stored caption (the whitespace-normalized form of the
word-policy cleaning, not the cleaning itself), and decoding `chars_ind`
yields the char-policy cleaning wrapped as `'<sos> ' … ' <eos>'` when special
tokens are enabled and the bare cleaning otherwise; consequently the Verifier
accepts the record exactly when the word-policy cleaning is already
whitespace-normalized and the decoded character string matches the
char-policy verification cleaning, raising the word-index error, else the
character-index error, otherwise nothing.  Part 2: on any record whose audio
and caption checks pass and whose indices are in range, the Verifier raises
the word-index mismatch error iff the word equality fails, and the
character-index mismatch error iff the word equality holds and the character
equality fails. -/
theorem claim_C1_round_trip_amended :
    (∀ (dedup : List (List Char) → List (List Char)) (s : AnnSettings)
      (wl cl : List (List Char)) (fn : List Char) (au : List Int) (ci : Nat)
      (c : List Char) (r : SampleRec),
      s.use_unique_words_per_caption = false →
      materializeCaption dedup s wl cl fn au ci c = some r →
      decodeWords wl r.words_ind =
          some (joinSpace (pySplit (pyStrip (cleanSentence c s.keep_case
            s.remove_punctuation_words (!s.use_special_tokens)))))
      ∧ decodeChars cl r.chars_ind =
          some (if s.use_special_tokens then
            lit "<sos> " ++ cleanSentence c s.keep_case s.remove_punctuation_chars true ++ lit " <eos>"
          else cleanSentence c s.keep_case s.remove_punctuation_chars true)
      ∧ checkRecord s wl cl c r au =
          (if cleanSentence c s.keep_case s.remove_punctuation_words (!s.use_special_tokens) ≠
              joinSpace (pySplit (pyStrip (cleanSentence c s.keep_case
                s.remove_punctuation_words (!s.use_special_tokens)))) then
            Except.error VError.wordIdxBad
          else if cleanSentence c s.keep_case s.remove_punctuation_chars (!s.use_special_tokens) ≠
              (if s.use_special_tokens then
                lit "<sos> " ++ cleanSentence c s.keep_case s.remove_punctuation_chars true ++ lit " <eos>"
              else cleanSentence c s.keep_case s.remove_punctuation_chars true) then
            Except.error VError.charIdxBad
          else Except.ok ()))
    ∧ (∀ (s : AnnSettings) (wl cl : List (List Char)) (oc : List Char)
      (r : SampleRec) (au : List Int) (dw dc : List Char),
      r.audio = au →
      cleanSentence oc true false (!s.use_special_tokens) =
        cleanSentence r.caption true false (!s.use_special_tokens) →
      decodeWords wl r.words_ind = some dw →
      decodeChars cl r.chars_ind = some dc →
      (checkRecord s wl cl oc r au = Except.error VError.wordIdxBad ↔
        cleanSentence r.caption s.keep_case s.remove_punctuation_words
          (!s.use_special_tokens) ≠ dw)
      ∧ (checkRecord s wl cl oc r au = Except.error VError.charIdxBad ↔
        (cleanSentence r.caption s.keep_case s.remove_punctuation_words
          (!s.use_special_tokens) = dw ∧
         cleanSentence r.caption s.keep_case s.remove_punctuation_chars
          (!s.use_special_tokens) ≠ dc))) := by
  constructor
  · intro dedup s wl cl fn au ci c r hu hm
    cases hw : lookupAll wl (wordsOf dedup s c) with
    | none => simp [materializeCaption, hw] at hm
    | some iw =>
      cases hc : lookupAll cl (charsOfMp s c) with
      | none => simp [materializeCaption, hw, hc] at hm
      | some ic =>
        simp only [materializeCaption, hw, hc, Option.some_inj] at hm
        subst hm
        have hdw : decodeWords wl iw = some (joinSpace (pySplit (pyStrip
            (cleanSentence c s.keep_case s.remove_punctuation_words
              (!s.use_special_tokens))))) := by
          rw [decodeWords, lookupAll_getAllIdx hw, Option.map_some', wordsOf_no_unique c hu]
        have hdc : decodeChars cl ic = some (if s.use_special_tokens then
            lit "<sos> " ++ cleanSentence c s.keep_case s.remove_punctuation_chars true ++ lit " <eos>"
          else cleanSentence c s.keep_case s.remove_punctuation_chars true) := by
          rw [decodeChars, lookupAll_getAllIdx hc, Option.map_some', flatten_charsOfMp]
        refine ⟨hdw, hdc, ?_⟩
        simp only [checkRecord, hdw, hdc]
        simp
  · intro s wl cl oc r au dw dc hau hcap hdw hdc
    simp only [checkRecord, hau, hcap, hdw, hdc, ne_eq, not_true_eq_false, if_false]
    by_cases h1 : cleanSentence r.caption s.keep_case s.remove_punctuation_words
        (!s.use_special_tokens) = dw
    · by_cases h2 : cleanSentence r.caption s.keep_case s.remove_punctuation_chars
          (!s.use_special_tokens) = dc
      · simp [h1, h2]
      · simp [h1, h2]
    · simp [h1]

/-- Witness for the amended C1: a whitespace-normalized caption verifies
cleanly, and the word-index error iff characterization holds at a concrete
record. -/
theorem claim_C1_round_trip_witness :
    checkRecord cfgPunctW [lit "a"] [lit "a"] (lit "a")
        (⟨lit "f.wav", [0], lit "a", 0, [0], [0]⟩ : SampleRec) [0] = Except.ok ()
    ∧ (checkRecord cfgPlain [lit "a"] [lit "a"] (lit "a") recPlain [0] =
        Except.error VError.wordIdxBad ↔
      cleanSentence (lit "a") cfgPlain.keep_case cfgPlain.remove_punctuation_words
        (!cfgPlain.use_special_tokens) ≠ lit "a") := by
  constructor
  · have h := (claim_C1_round_trip_amended).1 firstDedup cfgPunctW [lit "a"] [lit "a"]
      (lit "f.wav") [0] 0 (lit "a") ⟨lit "f.wav", [0], lit "a", 0, [0], [0]⟩ rfl (by decide)
    rw [h.2.2]
    decide
  · exact ((claim_C1_round_trip_amended).2 cfgPlain [lit "a"] [lit "a"] (lit "a")
      recPlain [0] (lit "a") (lit "a") rfl rfl rfl rfl).1

/-! ### Claim C6: NoDataForAudio exactly when no record matches -/

theorem checkRecord_ne_noData (s : AnnSettings) (wl cl : List (List Char))
    (oc : List Char) (r : SampleRec) (au : List Int) :
    checkRecord s wl cl oc r au ≠ Except.error VError.noData := by
  intro h
  simp only [checkRecord] at h
  repeat' split at h
  all_goals simp_all

theorem checkEntryFiles_noData_iff (s : AnnSettings) (wl cl : List (List Char))
    (csvCap : Nat → List Char) (stem : List Char) (au : List Int) :
    ∀ (files : List DataFile) (b : Bool),
      checkEntryFiles s wl cl csvCap stem au files b = Except.error VError.noData ↔
        (b = false ∧ ∀ f ∈ files, parseStem f.name ≠ stem) := by
  intro files
  induction files with
  | nil =>
    intro b
    cases b <;> simp [checkEntryFiles]
  | cons f fs ih =>
    intro b
    by_cases hf : parseStem f.name = stem
    · simp only [checkEntryFiles, if_pos hf]
      cases hcr : checkRecord s wl cl (csvCap (f.rcd.caption_ind + 1)) f.rcd au with
      | ok u =>
        cases u
        rw [ih true]
        simp [hf]
      | error e =>
        have hne : e ≠ VError.noData := by
          intro hh
          exact checkRecord_ne_noData s wl cl (csvCap (f.rcd.caption_ind + 1)) f.rcd au
            (by rw [hcr, hh])
        simp [hne, hf]
    · simp only [checkEntryFiles, if_neg hf]
      rw [ih b]
      simp only [List.mem_cons]
      constructor
      · rintro ⟨hb, hall⟩
        refine ⟨hb, ?_⟩
        rintro g (rfl | hg)
        · exact hf
        · exact hall g hg
      · rintro ⟨hb, hall⟩
        exact ⟨hb, fun g hg => hall g (Or.inr hg)⟩

theorem checkEntryFiles_ok (s : AnnSettings) (wl cl : List (List Char))
    (csvCap : Nat → List Char) (stem : List Char) (au : List Int) :
    ∀ (files : List DataFile) (b : Bool),
      (∀ f ∈ files, parseStem f.name = stem →
        checkRecord s wl cl (csvCap (f.rcd.caption_ind + 1)) f.rcd au = Except.ok ()) →
      (b = true ∨ ∃ f ∈ files, parseStem f.name = stem) →
      checkEntryFiles s wl cl csvCap stem au files b = Except.ok () := by
  intro files
  induction files with
  | nil =>
    intro b hall hb
    rcases hb with rfl | ⟨f, hf, _⟩
    · rfl
    · cases hf
  | cons f fs ih =>
    intro b hall hb
    by_cases hf : parseStem f.name = stem
    · have hok := hall f (by simp) hf
      simp only [checkEntryFiles, if_pos hf, hok]
      exact ih true (fun g hg => hall g (by simp [hg])) (Or.inl rfl)
    · simp only [checkEntryFiles, if_neg hf]
      refine ih b (fun g hg => hall g (by simp [hg])) ?_
      rcases hb with rfl | ⟨g, hg, hgs⟩
      · exact Or.inl rfl
      · rcases List.mem_cons.mp hg with rfl | hg'
        · exact absurd hgs hf
        · exact Or.inr ⟨g, hg', hgs⟩

/-- Claim C6: for an annotation entry whose audio file exists, verification
raises the no-associated-data error exactly when no file of the data
directory has a name that parses back to the entry's audio stem; and when at
least one file matches and every matching record passes its per-record
checks, verification of the entry raises nothing. -/
theorem claim_C6_no_data (s : AnnSettings) (wl cl : List (List Char))
    (csvCap : Nat → List Char) (stem : List Char) (au : List Int)
    (files : List DataFile) :
    (checkEntry s wl cl csvCap stem au files = Except.error VError.noData ↔
      ∀ f ∈ files, parseStem f.name ≠ stem)
    ∧ ((∃ f ∈ files, parseStem f.name = stem) →
       (∀ f ∈ files, parseStem f.name = stem →
         checkRecord s wl cl (csvCap (f.rcd.caption_ind + 1)) f.rcd au = Except.ok ()) →
       checkEntry s wl cl csvCap stem au files = Except.ok ()) := by
  constructor
  · rw [checkEntry, checkEntryFiles_noData_iff]
    simp
  · intro hex hall
    exact checkEntryFiles_ok s wl cl csvCap stem au files false hall (Or.inr hex)

/-- Witness for C6: a data directory holding exactly one record file
`clotho_file_x.wav_1.npy`, whose stem parses back to `"x"` and whose record
passes all checks, verifies cleanly; with a stem matching nothing, the
no-associated-data error is raised. -/
theorem claim_C6_no_data_witness :
    checkEntry cfgPlain [lit "a"] [lit "a"] (fun _ => lit "a") (lit "x") [0] [filePlain] =
      Except.ok ()
    ∧ (checkEntry cfgPlain [lit "a"] [lit "a"] (fun _ => lit "a") (lit "y") [0] [filePlain] =
        Except.error VError.noData ↔ ∀ f ∈ [filePlain], parseStem f.name ≠ lit "y") := by
  constructor
  · exact (claim_C6_no_data cfgPlain [lit "a"] [lit "a"] (fun _ => lit "a") (lit "x") [0]
      [filePlain]).2 ⟨filePlain, by decide, by decide⟩ (by decide)
  · exact (claim_C6_no_data cfgPlain [lit "a"] [lit "a"] (fun _ => lit "a") (lit "y") [0]
      [filePlain]).1

/-! ### Claim C7: normalizer step order and the punctuation step -/

theorem subPunct_eq_map (t : List Char) :
    subPunct t = t.map (fun c => if c ∈ punctChars then ' ' else c) := by
  induction t with
  | nil => rfl
  | cons c cs ih => simp [subPunct, ih]

/-- Counterexample to C7 as stated: the punctuation step does not delete the
punctuation characters, it replaces each with a space; on `"a,b"` the claim
predicts `"ab"` while `clean_sentence` returns `"a b"`. -/
theorem claim_C7_punct_cex :
    cleanSentence (lit "a,b") false true false = lit "a b"
    ∧ (lit "a,b").filter (fun c => !decide (c ∈ punctChars)) = lit "ab"
    ∧ lit "a b" ≠ lit "ab" := by
  refine ⟨by decide, by decide, by decide⟩

/-- Claim C7 amended: `clean_sentence` applies its steps in the fixed order
case folding (when `keep_case` is false), then special-token stripping, then
punctuation handling; and the punctuation step substitutes one space for
each occurrence of `, . ! ? ; : "` — so those characters are absent from the
output, every other character is preserved in place, and the length is
unchanged — rather than deleting them. -/
theorem claim_C7_steps_amended :
    (∀ (s : List Char) (rp rs : Bool),
      cleanSentence s false rp rs = cleanSentence (pyLower s) true rp rs)
    ∧ (∀ (s : List Char) (kc rs : Bool),
      cleanSentence s kc true rs = subPunct (cleanSentence s kc false rs))
    ∧ (∀ s : List Char, cleanSentence s true false true = removeSpecials s)
    ∧ (∀ t : List Char,
      subPunct t = t.map (fun c => if c ∈ punctChars then ' ' else c))
    ∧ (∀ t : List Char, (subPunct t).length = t.length)
    ∧ (∀ (s : List Char) (kc rs : Bool) (c : Char),
      c ∈ cleanSentence s kc true rs → c ∉ punctChars) := by
  refine ⟨fun s rp rs => rfl, fun s kc rs => rfl, fun s => rfl, subPunct_eq_map,
    ?_, ?_⟩
  · intro t
    rw [subPunct_eq_map]
    exact List.length_map t _
  · intro s kc rs c hc
    have h2 : cleanSentence s kc true rs = subPunct (cleanSentence s kc false rs) := rfl
    rw [h2, subPunct_eq_map] at hc
    obtain ⟨a, _, ha⟩ := List.mem_map.mp hc
    by_cases hp : a ∈ punctChars
    · rw [if_pos hp] at ha
      rw [← ha]
      decide
    · rw [if_neg hp] at ha
      exact ha ▸ hp

/-- Witness for the amended C7 at concrete inputs: case folding commutes out
of `clean_sentence`, and a character of the cleaned output is never a
punctuation character. -/
theorem claim_C7_steps_witness :
    cleanSentence (lit "A.") false true false = cleanSentence (pyLower (lit "A.")) true true false
    ∧ 'a' ∉ punctChars := by
  constructor
  · exact (claim_C7_steps_amended).1 (lit "A.") true false
  · exact (claim_C7_steps_amended).2.2.2.2.2 (lit "a,b") false false 'a' (by decide)

/-! ### Claim C8: which caption fields the annotation reader processes -/

/-- Counterexample to C8 as stated: the reader's field list is the literal
`range(1, 6)`, not `range(1, nb_captions + 1)`; with `nb_captions = 4` and
special tokens enabled, caption field 5 — outside the configured fields — is
still wrapped. -/
theorem claim_C8_fields_cex :
    cfgSpecN4.nb_captions = 4
    ∧ processEntry cfgSpecN4 entryX 5 = lit "<SOS> x <EOS>"
    ∧ processEntry cfgSpecN4 entryX 5 ≠ entryX 5 := by
  refine ⟨rfl, by decide, by decide⟩

/-- Claim C8 amended: the annotation reader applies its per-caption
preprocessing (an identity cleaning, plus wrapping as `'<SOS> {caption} <EOS>'`
when `use_special_tokens` is true) to exactly caption fields 1 through 5 of
every entry, regardless of `nb_captions`, and to no other field; this
coincides with the configured fields only when `nb_captions = 5`. -/
theorem claim_C8_fields_amended :
    (∀ (s : AnnSettings) (e : Nat → List Char) (i : Nat),
      1 ≤ i → i ≤ 5 → s.use_special_tokens = true →
      processEntry s e i = lit "<SOS> " ++ e i ++ lit " <EOS>")
    ∧ (∀ (s : AnnSettings) (e : Nat → List Char) (i : Nat),
      1 ≤ i → i ≤ 5 → s.use_special_tokens = false →
      processEntry s e i = e i)
    ∧ (∀ (s : AnnSettings) (e : Nat → List Char) (i : Nat),
      i = 0 ∨ 6 ≤ i → processEntry s e i = e i) := by
  have hid : ∀ c : List Char, cleanSentence c true false false = c := fun c => rfl
  refine ⟨?_, ?_, ?_⟩
  · intro s e i h1 h5 hs
    simp [processEntry, h1, h5, hs, hid]
  · intro s e i h1 h5 hs
    simp [processEntry, h1, h5, hs, hid]
  · intro s e i hi
    have hno : ¬(1 ≤ i ∧ i ≤ 5) := by omega
    simp [processEntry, hno]

/-- Witness for the amended C8: field 3 of a concrete entry is wrapped under
special tokens. -/
theorem claim_C8_fields_witness :
    processEntry cfgSpec entryX 3 = lit "<SOS> " ++ entryX 3 ++ lit " <EOS>" :=
  (claim_C8_fields_amended).1 cfgSpec entryX 3 (by decide) (by decide) rfl

/-! ### Claim C10: exact-form special-token stripping -/

theorem removeSubFuel_no_occ {pat s : List Char} (h : hasSub pat s = false) :
    ∀ fuel, removeSubFuel pat fuel s = s := by
  induction s with
  | nil =>
    intro fuel
    cases fuel <;> rfl
  | cons c cs ih =>
    intro fuel
    simp only [hasSub, Bool.or_eq_false_iff] at h
    cases fuel with
    | zero => rfl
    | succ n =>
      rw [removeSubFuel, if_neg (fun hc => by
        have := hc.2
        rw [h.1] at this
        cases this)]
      rw [ih h.2 n]

theorem removeSub_no_occ {pat s : List Char} (h : hasSub pat s = false) :
    removeSub pat s = s :=
  removeSubFuel_no_occ h s.length

/-- Claim C10: the special-token step removes only the exact substrings
`'<SOS> '`, `'<sos> '` (token plus one following space) and `' <EOS>'`,
`' <eos>'` (one space plus token); a string containing a special token in any
other form — no adjacent space, or the token as the entire string — passes
through unchanged, while the exact forms are removed. -/
theorem claim_C10_exact_specials :
    (∀ s : List Char,
      hasSub (lit "<SOS> ") s = false → hasSub (lit "<sos> ") s = false →
      hasSub (lit " <EOS>") s = false → hasSub (lit " <eos>") s = false →
      removeSpecials s = s)
    ∧ removeSpecials (lit "<sos>") = lit "<sos>"
    ∧ cleanSentence (lit "<sos>") false false true = lit "<sos>"
    ∧ removeSpecials (lit "<SOS> a") = lit "a"
    ∧ removeSpecials (lit "<sos> a") = lit "a"
    ∧ removeSpecials (lit "a <EOS>") = lit "a"
    ∧ removeSpecials (lit "a <eos>") = lit "a"
    ∧ removeSpecials (lit "a<sos>b") = lit "a<sos>b" := by
  refine ⟨?_, by decide, by decide, by decide, by decide, by decide, by decide, by decide⟩
  intro s h1 h2 h3 h4
  rw [removeSpecials, removeSub_no_occ h1, removeSub_no_occ h2,
    removeSub_no_occ h3, removeSub_no_occ h4]

/-- Witness for C10: a string containing `'<sos>'` not followed by a space is
left unchanged by the special-token step. -/
theorem claim_C10_exact_specials_witness :
    removeSpecials (lit "x <sos>x") = lit "x <sos>x" :=
  (claim_C10_exact_specials).1 (lit "x <sos>x") (by decide) (by decide) (by decide) (by decide)
